import Mathlib

/-
Verification of the feed-me-recipes ingestion service.

The repository is a TypeScript service that ingests a URL (an Instagram post
or a recipe web page), extracts a structured recipe (via JSON-LD structured
data and/or a text-generation model), and stores it in the AnyList service.

This file gives a shallow embedding of the relevant modules:
  * apify.ts        — getPostImageUrl, downloadImage
  * anylist.ts      — ensureLoggedIn, createRecipe (module-level client cache)
  * url-fetcher.ts  — extractJsonLd (JSON-LD script-block scanning)
  * recipe-extractor.ts — extractUrlFromCaption, tryFetchJsonLd,
                      extractRecipeFromInstagram, extractRecipeFromUrl,
                      extractRecipeFromSource
  * index.ts        — the /ingest endpoint and its attempt ledger

External effects (fetch, the Apify actor, the Anthropic model, sqlite,
JSON.parse) are modelled as explicit oracle parameters; thrown JS errors are
modelled with Except; `undefined`/`null` results with Option.  JS string
operations are embedded on List Char.
-/

namespace FeedMe

/-! ## Basic character and string machinery (JS regex semantics helpers) -/

/-- ASCII lower-casing, the case folding performed by a JS regex `/i` flag on
an ASCII-only pattern. -/
def lcChar (c : Char) : Char :=
  if 'A' ≤ c ∧ c ≤ 'Z' then Char.ofNat (c.toNat + 32) else c

/-- Lower-case every character of a list. -/
def lcList (s : List Char) : List Char := s.map lcChar

/-- The character class matched by a JS regex `\s` (whitespace). -/
def jsWS (c : Char) : Bool :=
  c = ' ' || c = '\t' || c = '\n' || c = '\r' || c = '\x0b' || c = '\x0c' ||
  c.toNat = 0xa0 || c.toNat = 0x1680 ||
  (0x2000 ≤ c.toNat && c.toNat ≤ 0x200a) ||
  c.toNat = 0x2028 || c.toNat = 0x2029 || c.toNat = 0x202f ||
  c.toNat = 0x205f || c.toNat = 0x3000 || c.toNat = 0xfeff

/-- Case-sensitive "starts with" on character lists. -/
def startsWithCS : List Char → List Char → Bool
  | [], _ => true
  | _ :: _, [] => false
  | p :: ps, c :: cs => p == c && startsWithCS ps cs

/-- Case-insensitive "starts with": the pattern is given in lower case and the
subject is folded character by character (JS `/i` semantics for ASCII). -/
def startsWithCI : List Char → List Char → Bool
  | [], _ => true
  | _ :: _, [] => false
  | p :: ps, c :: cs => lcChar c == p && startsWithCI ps cs

/-- Case-sensitive substring test, the semantics of JS
`String.prototype.includes`. -/
def containsSub (pat : List Char) : List Char → Bool
  | [] => pat.isEmpty
  | c :: rest => startsWithCS pat (c :: rest) || containsSub pat rest

/-- Case-insensitive substring test. -/
def containsSubCI (pat : List Char) : List Char → Bool
  | [] => pat.isEmpty
  | c :: rest => startsWithCI pat (c :: rest) || containsSubCI pat rest

/-! ## Data model (parser.ts schemas) -/

/-- parser.ts IngredientSchema. -/
structure Ingredient where
  name : String
  quantity : Option String
  note : Option String
  deriving DecidableEq, Repr

/-- parser.ts RecipeSchema.  prepTime and cookTime are JS numbers holding
minutes; the claims never do float arithmetic on them so Int suffices. -/
structure Recipe where
  name : String
  servings : Option String
  prepTime : Option Int
  cookTime : Option Int
  ingredients : List Ingredient
  steps : List String
  notes : Option String
  deriving DecidableEq, Repr

/-- parser.ts ParseResultSchema: the discriminated union on is_recipe. -/
inductive ParseResult where
  | notRecipe (reason : String)
  | isRecipe (confidence : Rat) (recipe : Recipe)
  deriving DecidableEq, Repr

/-- A JS Buffer, as a byte list. -/
abbrev Buffer := List Nat

/-! ## apify.ts — Instagram post fetching and image download -/

/-- apify.ts InstagramImage. -/
structure InstagramImage where
  displayUrl : String
  deriving DecidableEq, Repr

/-- apify.ts InstagramPost.  Optional fields are the interface's `?` fields. -/
structure InstagramPost where
  caption : String
  ownerUsername : String
  ownerFullName : String
  url : String
  shortCode : String
  timestamp : String
  type : String
  hashtags : List String
  displayUrl : Option String
  thumbnailUrl : Option String
  images : Option (List InstagramImage)
  deriving DecidableEq, Repr

/-- JS truthiness of `post.images && post.images.length > 0`. -/
def sidecarHasImages : Option (List InstagramImage) → Bool
  | some imgs => !imgs.isEmpty
  | none => false

/-- The value of `post.images[0].displayUrl` when the guard held. -/
def firstImageDisplayUrl : Option (List InstagramImage) → Option String
  | some (i :: _) => some i.displayUrl
  | _ => none

/-- JS truthiness of `post.thumbnailUrl` (undefined and the empty string are
falsy). -/
def thumbTruthy : Option String → Bool
  | some t => !(t == "")
  | none => false

/-- apify.ts getPostImageUrl: carousel posts use the first image, video posts
their thumbnail, and everything else (or any fallthrough) the top-level
displayUrl. -/
def getPostImageUrl (post : InstagramPost) : Option String :=
  if post.type = "Sidecar" ∧ sidecarHasImages post.images = true then
    firstImageDisplayUrl post.images
  else if post.type = "Video" ∧ thumbTruthy post.thumbnailUrl = true then
    post.thumbnailUrl
  else
    post.displayUrl

/-- The outcome of the single `fetch(imageUrl)` call inside downloadImage:
either the fetch rejects, or it resolves to a response with a status, an
optional content-type header and a body read that may itself reject. -/
inductive FetchOutcome where
  | fetchThrow (msg : String)
  | response (status : Nat) (contentType : Option String) (body : Except String Buffer)
  deriving Repr

/-- apify.ts downloadImage: the whole body sits inside a try/catch, so every
failure path produces undefined (here none) and nothing escapes.  `response.ok`
is status in 200..299; the content-type must start with "image/". -/
def downloadImage (o : FetchOutcome) : Option Buffer :=
  match o with
  | .fetchThrow _ => none
  | .response status contentType body =>
    if 200 ≤ status ∧ status ≤ 299 then
      match contentType with
      | none => none
      | some ct =>
        if startsWithCS "image/".data ct.data = true then
          match body with
          | .error _ => none
          | .ok buf => some buf
        else none
    else none

/-! ## Shared list lemmas -/

theorem takeWhile_append_all {l1 l2 : List Char} {p : Char → Bool}
    (h : ∀ c ∈ l1, p c = true) :
    (l1 ++ l2).takeWhile p = l1 ++ l2.takeWhile p := by
  induction l1 with
  | nil => simp
  | cons c cs ih =>
    rw [List.cons_append, List.takeWhile_cons_of_pos (by simp [h c]), List.cons_append,
      ih fun d hd => h d (by simp [hd])]

theorem dropWhile_append_all {l1 l2 : List Char} {p : Char → Bool}
    (h : ∀ c ∈ l1, p c = true) :
    (l1 ++ l2).dropWhile p = l2.dropWhile p := by
  induction l1 with
  | nil => simp
  | cons c cs ih =>
    rw [List.cons_append, List.dropWhile_cons_of_pos (by simp [h c]),
      ih fun d hd => h d (by simp [hd])]

theorem startsWithCS_append_self (pat rest : List Char) :
    startsWithCS pat (pat ++ rest) = true := by
  induction pat with
  | nil => rfl
  | cons p ps ih => simp [startsWithCS, ih]

theorem containsSub_of_startsWith {pat s : List Char} (h : startsWithCS pat s = true) :
    containsSub pat s = true := by
  cases s with
  | nil =>
    cases pat with
    | nil => rfl
    | cons p ps => simp [startsWithCS] at h
  | cons c cs => simp [containsSub, h]

theorem containsSub_of_parts (pat t u s : List Char) (h : s = t ++ (pat ++ u)) :
    containsSub pat s = true := by
  subst h
  induction t with
  | nil => exact containsSub_of_startsWith (startsWithCS_append_self pat u)
  | cons c cs ih => simp [containsSub, ih]

/-- Characterisation of the case-insensitive prefix test. -/
theorem startsWithCI_iff (pat s : List Char) :
    startsWithCI pat s = true ↔
      pat.length ≤ s.length ∧ (s.take pat.length).map lcChar = pat := by
  induction pat generalizing s with
  | nil => simp [startsWithCI]
  | cons p ps ih =>
    cases s with
    | nil => simp [startsWithCI]
    | cons c cs =>
      simp only [startsWithCI, Bool.and_eq_true, beq_iff_eq, List.length_cons,
        List.take_succ_cons, List.map_cons, List.cons.injEq, ih,
        Nat.succ_le_succ_iff]
      constructor
      · rintro ⟨h1, h2, h3⟩
        exact ⟨h2, h1, h3⟩
      · rintro ⟨h2, h1, h3⟩
        exact ⟨h1, h2, h3⟩

/-! ## Claim C10 — getPostImageUrl fallback policy -/

/-- Claim C10: for every fetched social post, getPostImageUrl falls back to
the post's top-level display image when the preferred source is unavailable:
a carousel (Sidecar) post whose images list is absent or empty, and a Video
post without a thumbnail URL, both yield the top-level displayUrl; the
function returns none only when that displayUrl is also absent. -/
theorem c10_getPostImageUrl_fallback (post : InstagramPost) :
    (post.type = "Sidecar" → (post.images = none ∨ post.images = some []) →
      getPostImageUrl post = post.displayUrl) ∧
    (post.type = "Video" → post.thumbnailUrl = none →
      getPostImageUrl post = post.displayUrl) ∧
    (getPostImageUrl post = none → post.displayUrl = none) := by
  refine ⟨?_, ?_, ?_⟩
  · intro hty himg
    have hempty : sidecarHasImages post.images = false := by
      rcases himg with h | h <;> simp [h, sidecarHasImages]
    have hvid : ¬ post.type = "Video" := by rw [hty]; decide
    simp [getPostImageUrl, hempty, hvid]
  · intro hty hthumb
    have hsc : ¬ post.type = "Sidecar" := by rw [hty]; decide
    simp [getPostImageUrl, hsc, hthumb, thumbTruthy]
  · intro hnone
    unfold getPostImageUrl at hnone
    split at hnone
    · rename_i hcond
      obtain ⟨-, himgs⟩ := hcond
      unfold sidecarHasImages at himgs
      unfold firstImageDisplayUrl at hnone
      cases himg : post.images with
      | none => rw [himg] at himgs; simp at himgs
      | some imgs =>
        rw [himg] at himgs hnone
        cases imgs with
        | nil => simp at himgs
        | cons i is => simp at hnone
    · split at hnone
      · rename_i hcond
        obtain ⟨-, hthumb⟩ := hcond
        unfold thumbTruthy at hthumb
        cases ht : post.thumbnailUrl with
        | none => rw [ht] at hthumb; simp at hthumb
        | some t => rw [ht] at hnone; simp at hnone
      · exact hnone

/-- A concrete Video post with no thumbnail, used to instantiate C10. -/
def videoPostNoThumb : InstagramPost :=
  { caption := "pasta night"
    ownerUsername := "chef"
    ownerFullName := "Chef Example"
    url := "https://www.instagram.com/p/abc/"
    shortCode := "abc"
    timestamp := "2024-01-01T00:00:00Z"
    type := "Video"
    hashtags := []
    displayUrl := some "https://cdn.example.com/frame.jpg"
    thumbnailUrl := none
    images := none }

/-- Witness for C10: the concrete Video post without a thumbnail yields its
top-level displayUrl. -/
theorem c10_witness :
    getPostImageUrl videoPostNoThumb = some "https://cdn.example.com/frame.jpg" := by
  have h := (c10_getPostImageUrl_fallback videoPostNoThumb).2.1 rfl rfl
  simpa [videoPostNoThumb] using h

/-! ## Claim C9 — downloadImage never throws -/

/-- Claim C9: for every image URL, downloadImage never throws: whenever the
fetch fails with any network error, the response status is non-2xx, or the
response content-type is not an image type, it returns none instead of
propagating an error.  The embedding returns Option Buffer with no error
constructor: every outcome of the underlying fetch maps to a defined value,
and each failure class maps to none. -/
theorem c9_downloadImage_total (o : FetchOutcome) :
    (∀ msg, o = .fetchThrow msg → downloadImage o = none) ∧
    (∀ status ct body, o = .response status ct body →
      ¬ (200 ≤ status ∧ status ≤ 299) → downloadImage o = none) ∧
    (∀ status body, o = .response status none body → downloadImage o = none) ∧
    (∀ status ct body, o = .response status (some ct) body →
      startsWithCS "image/".data ct.data = false → downloadImage o = none) := by
  refine ⟨?_, ?_, ?_, ?_⟩
  · intro msg h
    subst h
    rfl
  · intro status ct body h hst
    subst h
    simp [downloadImage, hst]
  · intro status body h
    subst h
    by_cases hst : 200 ≤ status ∧ status ≤ 299 <;> simp [downloadImage, hst]
  · intro status ct body h hct
    subst h
    by_cases hst : 200 ≤ status ∧ status ≤ 299 <;> simp [downloadImage, hst, hct]

/-- Witness for C9: a concrete non-2xx response and a concrete non-image
content type both produce none. -/
theorem c9_witness :
    downloadImage (.response 404 (some "text/html") (.ok [])) = none ∧
    downloadImage (.response 200 (some "text/html") (.ok [1, 2])) = none := by
  constructor
  · exact (c9_downloadImage_total _).2.1 404 (some "text/html") (.ok []) rfl (by omega)
  · exact (c9_downloadImage_total _).2.2.2 200 "text/html" (.ok [1, 2]) rfl (by decide)

/-! ## anylist.ts — session cache and createRecipe -/

/-- An opaque AnyListClient handle. -/
abbrev Client := Nat

/-- anylist.ts CreatedRecipe. -/
structure CreatedRecipe where
  id : String
  name : String
  deriving DecidableEq, Repr

/-- The argument object passed to the napi client's createRecipe call,
built field by field as in anylist.ts (note the `?? 0` defaults). -/
structure RecipePayload where
  name : String
  ingredients : List Ingredient
  preparationSteps : List String
  note : Option String
  servings : Option String
  prepTime : Int
  cookTime : Int
  sourceName : String
  sourceUrl : String
  deriving DecidableEq, Repr

/-- The payload construction inside anylist.ts createRecipe. -/
def mkPayload (recipe : Recipe) (sourceUrl sourceUsername : String) : RecipePayload :=
  { name := recipe.name
    ingredients := recipe.ingredients.map fun ing =>
      { name := ing.name, quantity := ing.quantity, note := ing.note }
    preparationSteps := recipe.steps
    note := recipe.notes
    servings := recipe.servings
    prepTime := recipe.prepTime.getD 0
    cookTime := recipe.cookTime.getD 0
    sourceName := "Instagram @" ++ sourceUsername
    sourceUrl := sourceUrl }

/-- The external AnyList service, as oracles: the outcome of
AnyListClient.login, and the outcome of the n-th client.createRecipe call
made with a given client and payload (n counts write attempts, so that
retry behaviour is observable). -/
structure AnyListEnv where
  login : Except String Client
  write : Client → RecipePayload → Nat → Except String CreatedRecipe

/-- anylist.ts ensureLoggedIn over the module-level `client` cache: a cached
client is kept as-is; otherwise one login is attempted. -/
def ensureLoggedIn (env : AnyListEnv) (st : Option Client) :
    Except String (Option Client) :=
  match st with
  | some c => .ok (some c)
  | none =>
    match env.login with
    | .error e => .error e
    | .ok c => .ok (some c)

/-- anylist.ts createRecipe.  Returns the call result, the module-level
client cache afterwards, and how many write attempts were made.  The body
performs ensureLoggedIn, a null check, and a single client.createRecipe
call whose error, if any, propagates directly. -/
def createRecipe (env : AnyListEnv) (st : Option Client) (recipe : Recipe)
    (sourceUrl sourceUsername : String) :
    Except String CreatedRecipe × Option Client × Nat :=
  match ensureLoggedIn env st with
  | .error e => (.error e, st, 0)
  | .ok newSt =>
    match newSt with
    | none => (.error "AnyList client not initialized", newSt, 0)
    | some c =>
      match env.write c (mkPayload recipe sourceUrl sourceUsername) 0 with
      | .error e => (.error e, some c, 1)
      | .ok created => (.ok { id := created.id, name := created.name }, some c, 1)

/-! ## Claim C1 — no auth-failure recovery in createRecipe -/

/-- A service in which the first write on the cached session fails with an
authentication error and a retried write would succeed. -/
def authFlakyEnv : AnyListEnv :=
  { login := .ok 0
    write := fun _ _ n =>
      if n = 0 then .error "401 Unauthorized" else .ok { id := "r1", name := "Pasta" } }

/-- A concrete recipe for the C1 scenario. -/
def pastaRecipe : Recipe :=
  { name := "Pasta"
    servings := some "2 servings"
    prepTime := some 10
    cookTime := some 20
    ingredients := [{ name := "spaghetti", quantity := some "200 g", note := none }]
    steps := ["Boil.", "Drain."]
    notes := none }

/-- Counterexample to claim C1.  The claim says a detected authentication
failure is recovered automatically exactly once (reset the cached session,
re-authenticate, retry the single failing write), so with a write oracle
whose first attempt fails with 401 and whose second attempt succeeds the
call would have to succeed after two write attempts with a fresh session.
The code instead propagates the first failure after exactly one write
attempt and leaves the cached session untouched. -/
theorem c1_counterexample :
    createRecipe authFlakyEnv (some 0) pastaRecipe "https://example.com/pasta" "chef" =
      (.error "401 Unauthorized", some 0, 1) ∧
    authFlakyEnv.write 0 (mkPayload pastaRecipe "https://example.com/pasta" "chef") 1 =
      .ok { id := "r1", name := "Pasta" } := by
  constructor
  · rfl
  · rfl

/-- Claim C1 as amended: createRecipe performs no automatic recovery at all.
Per call it makes at most one write attempt; when the session is cached and
the write fails (authentication failure or otherwise), the error propagates
unchanged, the cached session is not reset, and exactly one write attempt
was made. -/
theorem c1_no_recovery (env : AnyListEnv) (st : Option Client) (recipe : Recipe)
    (sourceUrl sourceUsername : String) :
    (createRecipe env st recipe sourceUrl sourceUsername).2.2 ≤ 1 ∧
    (∀ c e, st = some c →
      env.write c (mkPayload recipe sourceUrl sourceUsername) 0 = .error e →
      createRecipe env st recipe sourceUrl sourceUsername = (.error e, some c, 1)) := by
  constructor
  · unfold createRecipe
    cases hlog : ensureLoggedIn env st with
    | error e => simp
    | ok newSt =>
      cases newSt with
      | none => simp
      | some c =>
        cases hw : env.write c (mkPayload recipe sourceUrl sourceUsername) 0 <;> simp [hw]
  · intro c e hst hw
    subst hst
    unfold createRecipe ensureLoggedIn
    simp [hw]

/-- Witness for the amended C1 at the concrete flaky service. -/
theorem c1_witness :
    createRecipe authFlakyEnv (some 0) pastaRecipe "https://example.com/pasta" "chef" =
      (.error "401 Unauthorized", some 0, 1) ∧
    (createRecipe authFlakyEnv (some 0) pastaRecipe "https://example.com/pasta" "chef").2.2 ≤ 1 := by
  have h := c1_no_recovery authFlakyEnv (some 0) pastaRecipe "https://example.com/pasta" "chef"
  exact ⟨h.2 0 "401 Unauthorized" rfl rfl, h.1⟩

/-! ## index.ts — the /ingest endpoint and the attempt ledger -/

/-- The persistent and process state the ingest handler touches: the sqlite
import_attempts table keyed by URL (rows are never deleted), and the list of
background extraction jobs that have been started. -/
structure IngestState where
  ledger : List String
  jobs : List String
  deriving DecidableEq, Repr

/-- The response classes of POST /ingest. -/
inductive IngestResponse where
  | unauthorized
  | invalid
  | duplicate
  | accepted
  deriving DecidableEq, Repr

/-- index.ts requireAuth: the Authorization header must start with
"Bearer " and the rest must equal the API token. -/
def requireAuth (apiToken : String) (authHeader : Option String) : Bool :=
  match authHeader with
  | none => false
  | some h =>
    startsWithCS "Bearer ".data h.data && (String.mk (h.data.drop 7) == apiToken)

/-- index.ts POST /ingest.  Zod URL validation is an oracle (validUrl).
Inserting a URL already present raises SQLITE_CONSTRAINT_UNIQUE, which the
handler catches and answers 200 without starting a job; otherwise the URL is
inserted, 202 is returned and one processRecipe job starts. -/
def ingestHandler (apiToken : String) (validUrl : String → Bool)
    (st : IngestState) (authHeader : Option String) (url : String) :
    IngestState × IngestResponse :=
  if requireAuth apiToken authHeader = false then (st, .unauthorized)
  else if validUrl url = false then (st, .invalid)
  else if url ∈ st.ledger then (st, .duplicate)
  else ({ ledger := url :: st.ledger, jobs := url :: st.jobs }, .accepted)

/-- The state transition of one /ingest request. -/
def ingestStep (apiToken : String) (validUrl : String → Bool)
    (st : IngestState) (req : Option String × String) : IngestState :=
  (ingestHandler apiToken validUrl st req.1 req.2).1

/-- Running a sequence of /ingest requests. -/
def runIngest (apiToken : String) (validUrl : String → Bool)
    (reqs : List (Option String × String)) (st : IngestState) : IngestState :=
  reqs.foldl (ingestStep apiToken validUrl) st

theorem ingestStep_inv (apiToken : String) (validUrl : String → Bool)
    (st : IngestState) (req : Option String × String) (url : String)
    (hcount : st.jobs.count url ≤ 1) (hsub : url ∈ st.jobs → url ∈ st.ledger) :
    (ingestStep apiToken validUrl st req).jobs.count url ≤ 1 ∧
      (url ∈ (ingestStep apiToken validUrl st req).jobs →
        url ∈ (ingestStep apiToken validUrl st req).ledger) := by
  unfold ingestStep ingestHandler
  split
  · exact ⟨hcount, hsub⟩
  · split
    · exact ⟨hcount, hsub⟩
    · split
      · exact ⟨hcount, hsub⟩
      · rename_i hnotin
        constructor
        · by_cases heq : url = req.2
          · have hnj : url ∉ st.jobs := fun hj => hnotin (heq ▸ hsub hj)
            rw [← heq]
            simp [List.count_cons, List.count_eq_zero.mpr hnj]
          · simpa [List.count_cons, heq] using hcount
        · intro hmem
          rcases List.mem_cons.mp hmem with heq | hmem'
          · exact List.mem_cons.mpr (Or.inl heq)
          · exact List.mem_cons.mpr (Or.inr (hsub hmem'))

/-- Claim C5: for every URL, the ingest endpoint enqueues at most one
asynchronous extraction job across any sequence of requests: a URL already
recorded in the attempt ledger is accepted (HTTP 200) but no second job is
started, including while the first job is still in flight (started jobs
stay in the ledger, which is never cleared). -/
theorem c5_idempotent_ingest (apiToken : String) (validUrl : String → Bool)
    (reqs : List (Option String × String)) (st : IngestState) (url : String)
    (hcount : st.jobs.count url ≤ 1) (hsub : url ∈ st.jobs → url ∈ st.ledger) :
    ((runIngest apiToken validUrl reqs st).jobs.count url ≤ 1 ∧
      (url ∈ (runIngest apiToken validUrl reqs st).jobs →
        url ∈ (runIngest apiToken validUrl reqs st).ledger)) ∧
    (∀ hdr, requireAuth apiToken hdr = true → validUrl url = true →
      url ∈ st.ledger → ingestHandler apiToken validUrl st hdr url = (st, .duplicate)) := by
  constructor
  · induction reqs generalizing st with
    | nil => exact ⟨hcount, hsub⟩
    | cons r rs ih =>
      have hstep := ingestStep_inv apiToken validUrl st r url hcount hsub
      exact ih (ingestStep apiToken validUrl st r) hstep.1 hstep.2
  · intro hdr hauth hvalid hmem
    unfold ingestHandler
    simp [hauth, hvalid, hmem]

/-- Witness for C5: the same URL submitted twice with a valid bearer token
starts exactly one job. -/
theorem c5_witness :
    (runIngest "secret" (fun _ => true)
      [(some "Bearer secret", "https://example.com/a"),
       (some "Bearer secret", "https://example.com/a")]
      { ledger := [], jobs := [] }).jobs.count "https://example.com/a" ≤ 1 ∧
    (runIngest "secret" (fun _ => true)
      [(some "Bearer secret", "https://example.com/a"),
       (some "Bearer secret", "https://example.com/a")]
      { ledger := [], jobs := [] }).jobs = ["https://example.com/a"] := by
  refine ⟨?_, rfl⟩
  exact (c5_idempotent_ingest "secret" (fun _ => true)
    [(some "Bearer secret", "https://example.com/a"),
     (some "Bearer secret", "https://example.com/a")]
    { ledger := [], jobs := [] } "https://example.com/a"
    (by decide) (by intro h; exact absurd h (by decide))).1.1

/-! ## url-fetcher.ts — JSON-LD extraction from HTML

JSON.parse is modelled as an oracle of type List Char → Option Json; a JS
exception is none.  Property access on a parsed `null` throws a TypeError in
JS, which the code does not catch, so the loop is embedded in Except. -/

/-- A parsed JSON value. -/
inductive Json where
  | null
  | bool (b : Bool)
  | num (n : Rat)
  | str (s : String)
  | arr (xs : List Json)
  | obj (fields : List (String × Json))

/-- JS object property lookup on a parsed JSON object. -/
def lookupField (key : String) : List (String × Json) → Option Json
  | [] => none
  | (k, v) :: rest => if k = key then some v else lookupField key rest

/-- The predicate of the `items.find` call: the item is a truthy object whose
`@type` property is strictly equal to the string "Recipe". -/
def isRecipeCand (j : Json) : Bool :=
  match j with
  | .obj fields =>
    match lookupField "@type" fields with
    | some (.str s) => s == "Recipe"
    | _ => false
  | _ => false

/-- The candidate-list normalisation described by the spec: a top-level array
as-is, an object's `@graph` array unwrapped, anything else as a one-element
list.  (The implementation, itemsOf, additionally throws on null.) -/
def specCandidates : Json → List Json
  | .arr xs => xs
  | .obj fields =>
    match lookupField "@graph" fields with
    | some (.arr g) => g
    | _ => [.obj fields]
  | j => [j]

/-- The normalisation actually performed by extractJsonLd:
`Array.isArray(data) ? data : Array.isArray(data['@graph']) ? data['@graph'] : [data]`.
When data is JSON null the property access `data['@graph']` throws a
TypeError that the function does not catch. -/
def itemsOf : Json → Except String (List Json)
  | .arr xs => .ok xs
  | .null => .error "TypeError: Cannot read properties of null"
  | .obj fields =>
    .ok (match lookupField "@graph" fields with
          | some (.arr g) => g
          | _ => [.obj fields])
  | j => .ok [j]

/-- The literal attribute required inside the script tag. -/
def typeAttrLit : List Char := "type=\"application/ld+json\"".data

/-- The closing tag literal. -/
def closeTagLit : List Char := "</script>".data

/-- The lazy `([\s\S]*?)<\/script>` part of the script-block regex: splits at
the first (case-insensitive) closing tag, returning the content before it and
the text after it. -/
def splitAtCloseTag : List Char → Option (List Char × List Char)
  | [] => none
  | c :: rest =>
    if startsWithCI closeTagLit (c :: rest) then some ([], (c :: rest).drop 9)
    else
      match splitAtCloseTag rest with
      | some (content, after) => some (c :: content, after)
      | none => none

/-- Matching attempt of the opening-tag part
`<script[^>]+type="application\/ld\+json"[^>]*>` at the head of s.  With
greedy backtracking the match always ends at the first '>' after "<script",
and succeeds iff the attribute literal occurs (case-insensitively) at offset
at least 1 inside the tag body.  Returns the text after the '>'. -/
def tryOpenAt (s : List Char) : Option (List Char) :=
  if startsWithCI "<script".data s then
    let t := s.drop 7
    let body := t.takeWhile fun c => !(c == '>')
    if body.length < t.length ∧ containsSubCI typeAttrLit (body.drop 1) = true then
      some (t.drop (body.length + 1))
    else none
  else none

/-- One step of `scriptPattern.exec(html)`: the leftmost full match of the
script-block regex, returning the captured content and the text after the
match (the regex's lastIndex position). -/
def findScriptBlock : List Char → Option (List Char × List Char)
  | [] => none
  | c :: rest =>
    match tryOpenAt (c :: rest) with
    | some afterOpen =>
      match splitAtCloseTag afterOpen with
      | some (content, afterClose) => some (content, afterClose)
      | none => findScriptBlock rest
    | none => findScriptBlock rest

/-- The while loop of extractJsonLd, with fuel (each iteration consumes at
least one character, so length + 1 fuel is always enough). -/
def extractLoop (parse : List Char → Option Json) :
    Nat → List Char → Except String (Option Json)
  | 0, _ => .ok none
  | fuel + 1, cs =>
    match findScriptBlock cs with
    | none => .ok none
    | some (content, rest) =>
      match parse content with
      | none => extractLoop parse fuel rest
      | some data =>
        match itemsOf data with
        | .error e => .error e
        | .ok items =>
          match items.find? isRecipeCand with
          | some r => .ok (some r)
          | none => extractLoop parse fuel rest

/-- url-fetcher.ts extractJsonLd, parameterised by the JSON.parse oracle. -/
def extractJsonLd (parse : List Char → Option Json) (html : String) :
    Except String (Option Json) :=
  extractLoop parse (html.data.length + 1) html.data

/-- The document-order sequence of JSON-LD script block contents. -/
def blocksLoop : Nat → List Char → List (List Char)
  | 0, _ => []
  | fuel + 1, cs =>
    match findScriptBlock cs with
    | none => []
    | some (content, rest) => content :: blocksLoop fuel rest

/-- All JSON-LD script block contents of an HTML document, in order. -/
def scriptBlocks (html : String) : List (List Char) :=
  blocksLoop (html.data.length + 1) html.data

/-- Whether the JSON.parse oracle turns a block into JSON null (the input
class on which the implementation throws). -/
def parseNullB (parse : List Char → Option Json) (b : List Char) : Bool :=
  match parse b with
  | some .null => true
  | _ => false

theorem splitAtCloseTag_shrink :
    ∀ s content after, splitAtCloseTag s = some (content, after) →
      after.length < s.length := by
  intro s
  induction s with
  | nil => intro content after h; simp [splitAtCloseTag] at h
  | cons c rest ih =>
    intro content after h
    unfold splitAtCloseTag at h
    split at h
    · simp only [Option.some.injEq, Prod.mk.injEq] at h
      rw [← h.2, List.length_drop]
      simp only [List.length_cons]
      omega
    · cases hsplit : splitAtCloseTag rest with
      | none => rw [hsplit] at h; simp at h
      | some p =>
        rw [hsplit] at h
        obtain ⟨content', after'⟩ := p
        simp only [Option.some.injEq, Prod.mk.injEq] at h
        have := ih content' after' hsplit
        rw [← h.2]
        simp only [List.length_cons]
        omega

theorem tryOpenAt_shrink :
    ∀ s afterOpen, tryOpenAt s = some afterOpen → afterOpen.length < s.length := by
  intro s afterOpen h
  unfold tryOpenAt at h
  split at h
  · rename_i hscript
    dsimp only at h
    split at h
    · simp only [Option.some.injEq] at h
      have hlen : 7 ≤ s.length := ((startsWithCI_iff _ _).mp hscript).1
      rw [← h, List.length_drop, List.length_drop]
      omega
    · simp at h
  · simp at h

theorem findScriptBlock_shrink :
    ∀ cs content rest, findScriptBlock cs = some (content, rest) →
      rest.length < cs.length := by
  intro cs
  induction cs with
  | nil => intro content rest h; simp [findScriptBlock] at h
  | cons c tl ih =>
    intro content rest h
    cases hopen : tryOpenAt (c :: tl) with
    | some afterOpen =>
      cases hsplit : splitAtCloseTag afterOpen with
      | some p =>
        obtain ⟨content', afterClose⟩ := p
        simp only [findScriptBlock, hopen, hsplit, Option.some.injEq, Prod.mk.injEq] at h
        have h1 := splitAtCloseTag_shrink afterOpen content' afterClose hsplit
        have h2 := tryOpenAt_shrink (c :: tl) afterOpen hopen
        simp only [List.length_cons] at h2
        rw [← h.2]
        simp only [List.length_cons]
        omega
      | none =>
        simp only [findScriptBlock, hopen, hsplit] at h
        have := ih content rest h
        simp only [List.length_cons]
        omega
    | none =>
      simp only [findScriptBlock, hopen] at h
      have := ih content rest h
      simp only [List.length_cons]
      omega

theorem itemsOf_of_ne_null {d : Json} (h : d ≠ .null) :
    itemsOf d = .ok (specCandidates d) := by
  cases d with
  | null => exact absurd rfl h
  | bool b => rfl
  | num n => rfl
  | str s => rfl
  | arr xs => rfl
  | obj fields => rfl

theorem extractLoop_spec (parse : List Char → Option Json) :
    ∀ fuel cs, cs.length < fuel →
      (∀ b ∈ blocksLoop fuel cs, parseNullB parse b = false) →
      extractLoop parse fuel cs =
        .ok ((blocksLoop fuel cs).findSome? fun b =>
          (parse b).bind fun d => (specCandidates d).find? isRecipeCand) := by
  intro fuel
  induction fuel with
  | zero => intro cs h; omega
  | succ n ih =>
    intro cs hlen hnull
    cases hfind : findScriptBlock cs with
    | none => simp [extractLoop, blocksLoop, hfind]
    | some p =>
      obtain ⟨content, rest⟩ := p
      have hshrink := findScriptBlock_shrink cs content rest hfind
      have hrest : rest.length < n := by omega
      have hnull' : ∀ b ∈ blocksLoop n rest, parseNullB parse b = false := by
        intro b hb
        apply hnull
        simp only [blocksLoop, hfind]
        exact List.mem_cons_of_mem _ hb
      have hcontent : parseNullB parse content = false := by
        apply hnull
        simp only [blocksLoop, hfind]
        exact List.mem_cons_self _ _
      cases hparse : parse content with
      | none =>
        simp only [extractLoop, blocksLoop, hfind, hparse]
        simp [List.findSome?_cons, hparse, ih rest hrest hnull']
      | some d =>
        have hd : d ≠ .null := by
          intro hcontra
          rw [hcontra] at hparse
          unfold parseNullB at hcontent
          rw [hparse] at hcontent
          simp at hcontent
        simp only [extractLoop, blocksLoop, hfind, hparse, itemsOf_of_ne_null hd]
        cases hfindr : (specCandidates d).find? isRecipeCand with
        | some r => simp [List.findSome?_cons, hparse, hfindr]
        | none => simp [List.findSome?_cons, hparse, hfindr, ih rest hrest hnull']

/-- Claim C8 as amended: extractJsonLd scans the embedded JSON-LD script
blocks in document order, skips blocks that fail to parse, normalises each
parsed value to a candidate list (top-level array as-is, @graph array
unwrapped, single value as a one-element list) and returns the first
candidate whose @type equals "Recipe", or none when no block yields one —
provided no block parses to JSON null; a null block instead aborts the scan
with a TypeError (see the counterexample). -/
theorem c8_block_scan (parse : List Char → Option Json) (html : String)
    (hnull : ∀ b ∈ scriptBlocks html, parseNullB parse b = false) :
    extractJsonLd parse html =
      .ok ((scriptBlocks html).findSome? fun b =>
        (parse b).bind fun d => (specCandidates d).find? isRecipeCand) := by
  exact extractLoop_spec parse (html.data.length + 1) html.data (by omega) hnull

/-- A JSON.parse oracle for the concrete counterexample and witness inputs:
it parses the literal null, a malformed block to a parse error, and one
concrete @graph document. -/
def sampleParse (s : List Char) : Option Json :=
  if s = "null".data then some .null
  else if s = "GRAPHDOC".data then
    some (.obj [("@context", .str "https://schema.org"),
                ("@graph", .arr [.obj [("@type", .str "WebSite")],
                                 .obj [("@type", .str "Recipe"),
                                       ("name", .str "Cake")]])])
  else none

/-- Counterexample to claim C8 as stated: an HTML document whose single
JSON-LD block is the valid JSON document `null` has no candidate of @type
"Recipe", so the claim requires the scan to return none; the code instead
evaluates `(null)['@graph']` and throws a TypeError that aborts extraction. -/
theorem c8_counterexample :
    scriptBlocks "<script type=\"application/ld+json\">null</script>" = ["null".data] ∧
    extractJsonLd sampleParse "<script type=\"application/ld+json\">null</script>" =
      .error "TypeError: Cannot read properties of null" := by
  constructor
  · rfl
  · rfl

/-- Witness for the amended C8: a document with one malformed block followed
by an @graph block containing a Recipe candidate yields that candidate. -/
theorem c8_witness :
    extractJsonLd sampleParse
      ("<script type=\"application/ld+json\">nonsense</script>" ++
       "<script type=\"application/ld+json\">GRAPHDOC</script>") =
      .ok (some (.obj [("@type", .str "Recipe"), ("name", .str "Cake")])) := by
  have h := c8_block_scan sampleParse
    ("<script type=\"application/ld+json\">nonsense</script>" ++
     "<script type=\"application/ld+json\">GRAPHDOC</script>")
    (by intro b hb; fin_cases hb <;> rfl)
  rw [h]
  rfl

/-! ## recipe-extractor.ts — extractUrlFromCaption

The regex `/(?:https?:\/\/|www\.)(?!(?:www\.)?instagram\.com)[^\s]+/i` is
embedded operationally: the engine tries each start position left to right;
at a position one of the three prefixes may match (they are mutually
exclusive on their first character), the negative lookahead must fail to
match, and the greedy `[^\s]+` needs at least one non-whitespace character. -/

/-- The trailing punctuation class of the final `replace(/[.,)>\]]+$/, '')`. -/
def isPunct (c : Char) : Bool :=
  c = '.' || c = ',' || c = ')' || c = '>' || c = ']'

/-- The lookahead body `(?:www\.)?instagram\.com` matches at s. -/
def instaAfter (s : List Char) : Bool :=
  startsWithCI "www.instagram.com".data s || startsWithCI "instagram.com".data s

/-- The prefix alternation `https?:\/\/|www\.` at the head of s, returning
the consumed characters (case preserved) and the remainder. -/
def matchPrefixAt (s : List Char) : Option (List Char × List Char) :=
  if startsWithCI "https://".data s then some (s.take 8, s.drop 8)
  else if startsWithCI "http://".data s then some (s.take 7, s.drop 7)
  else if startsWithCI "www.".data s then some (s.take 4, s.drop 4)
  else none

/-- A URL-shaped token begins at s (spec-side notion used in hypotheses). -/
def urlIsh (s : List Char) : Bool :=
  startsWithCI "https://".data s || startsWithCI "http://".data s ||
    startsWithCI "www.".data s

/-- The characters JS URL parsing treats as ending the host. -/
def hostChar (c : Char) : Bool :=
  !(c = '/' || c = ':' || c = '?' || c = '#' || jsWS c)

/-- The host text beginning at a URL-shaped position: the characters after
the scheme (or from the bare www. itself) up to the first delimiter or
whitespace (spec-side notion used in hypotheses). -/
def hostOfAt (s : List Char) : Option (List Char) :=
  if startsWithCI "https://".data s then some ((s.drop 8).takeWhile hostChar)
  else if startsWithCI "http://".data s then some ((s.drop 7).takeWhile hostChar)
  else if startsWithCI "www.".data s then some (s.takeWhile hostChar)
  else none

/-- The leftmost regex match: scan positions left to right, requiring a
prefix alternative, a failing lookahead and a nonempty non-whitespace run. -/
def findUrlMatch : List Char → Option (List Char)
  | [] => none
  | c :: rest =>
    match matchPrefixAt (c :: rest) with
    | some (consumed, after) =>
      if instaAfter after then findUrlMatch rest
      else
        match after.takeWhile (fun ch => !jsWS ch) with
        | [] => findUrlMatch rest
        | run => some (consumed ++ run)
    | none => findUrlMatch rest

/-- The caption normalisation `caption.replace(/\n(?=\S)/g, '')`: a newline
immediately followed by a non-whitespace character is removed. -/
def collapseNL : List Char → List Char
  | [] => []
  | c :: rest =>
    if c = '\n' then
      match rest with
      | [] => ['\n']
      | d :: _ => if jsWS d then '\n' :: collapseNL rest else collapseNL rest
    else c :: collapseNL rest

/-- The final `match[0].replace(/[.,)>\]]+$/, '')`. -/
def stripTrailingPunct (m : List Char) : List Char :=
  (m.reverse.dropWhile isPunct).reverse

/-- recipe-extractor.ts extractUrlFromCaption. -/
def extractUrlFromCaption (caption : String) : Option String :=
  match findUrlMatch (collapseNL caption.data) with
  | none => none
  | some m =>
    let url := stripTrailingPunct m
    if startsWithCS "http".data url = true then some (String.mk url)
    else some (String.mk ("https://".data ++ url))

/-! ## recipe-extractor.ts — the extraction orchestrator -/

/-- Which of the three synthesis prompts were invoked (the trace of model
calls made during one extraction). -/
inductive ModelCall where
  | captionOnly
  | jsonLdOnly
  | merge
  deriving DecidableEq, Repr

/-- recipe-extractor.ts RecipeExtraction. -/
structure RecipeExtraction where
  recipe : Recipe
  sourceUrl : String
  sourceName : String
  photo : Option Buffer
  deriving DecidableEq, Repr

/-- recipe-extractor.ts ExtractionResult: ok:false with a reason, or ok:true
with a value. -/
inductive ExtractionResult where
  | notRecipe (reason : String)
  | extracted (value : RecipeExtraction)
  deriving DecidableEq, Repr

/-- recipe-extractor.ts ExtractionDeps, with thrown JS errors as Except and
undefined/null results as Option. -/
structure ExtractionDeps where
  fetchInstagramPost : String → Except String InstagramPost
  getPostImageUrl : InstagramPost → Option String
  downloadImage : String → Option Buffer
  fetchHtml : String → Except String String
  extractJsonLd : String → Except String (Option Json)
  extractOpenGraphImageUrl : String → Option String
  parseRecipeFromCaption : String → Except String ParseResult
  parseRecipeFromJsonLd : Json → Except String ParseResult
  parseRecipeFromJsonLdAndCaption : Json → String → Except String ParseResult

/-- recipe-extractor.ts tryFetchJsonLd: the try/catch around fetchHtml and
extractJsonLd turns every thrown error into null. -/
def tryFetchJsonLd (url : String) (deps : ExtractionDeps) : Option Json :=
  match deps.fetchHtml url with
  | .error _ => none
  | .ok html =>
    match deps.extractJsonLd html with
    | .error _ => none
    | .ok v => v

/-- The shared tail of extractRecipeFromInstagram: pick the post image per
getPostImageUrl, best-effort download it, and build the success value.
`imageUrl ? await deps.downloadImage(imageUrl) : undefined` treats the empty
string as falsy, as does `post.ownerFullName || post.ownerUsername`. -/
def finishPost (deps : ExtractionDeps) (post : InstagramPost) (recipe : Recipe)
    (sourceUrl : String) (trace : List ModelCall) :
    Except String (ExtractionResult × List ModelCall) :=
  let photo :=
    match deps.getPostImageUrl post with
    | some u => if u = "" then none else deps.downloadImage u
    | none => none
  .ok (.extracted
    { recipe := recipe
      sourceUrl := sourceUrl
      sourceName := if post.ownerFullName = "" then post.ownerUsername else post.ownerFullName
      photo := photo }, trace)

/-- The caption-only else branch of extractRecipeFromInstagram. -/
def captionBranch (url : String) (deps : ExtractionDeps) (post : InstagramPost) :
    Except String (ExtractionResult × List ModelCall) :=
  match deps.parseRecipeFromCaption post.caption with
  | .error e => .error e
  | .ok (.notRecipe reason) => .ok (.notRecipe reason, [.captionOnly])
  | .ok (.isRecipe _ recipe) => finishPost deps post recipe url [.captionOnly]

/-- The merge branch of extractRecipeFromInstagram: the linked page's JSON-LD
plus the caption, with the linked URL becoming sourceUrl. -/
def mergeBranch (linkedUrl : String) (deps : ExtractionDeps) (post : InstagramPost)
    (jsonLd : Json) : Except String (ExtractionResult × List ModelCall) :=
  match deps.parseRecipeFromJsonLdAndCaption jsonLd post.caption with
  | .error e => .error e
  | .ok (.notRecipe reason) => .ok (.notRecipe reason, [.merge])
  | .ok (.isRecipe _ recipe) => finishPost deps post recipe linkedUrl [.merge]

/-- recipe-extractor.ts extractRecipeFromInstagram.  The branch condition is
`if (jsonLd && linkedUrl)`, with JS truthiness on the string linkedUrl. -/
def extractRecipeFromInstagram (url : String) (deps : ExtractionDeps) :
    Except String (ExtractionResult × List ModelCall) :=
  match deps.fetchInstagramPost url with
  | .error e => .error e
  | .ok post =>
    match (match extractUrlFromCaption post.caption with
           | some l => tryFetchJsonLd l deps
           | none => none), extractUrlFromCaption post.caption with
    | some j, some l =>
      if l = "" then captionBranch url deps post
      else mergeBranch l deps post j
    | some _, none => captionBranch url deps post
    | none, _ => captionBranch url deps post

/-- The hostname of `new URL(url)` for http(s) URLs, without the lowercasing
and punycoding JS additionally performs; none models the TypeError new URL
throws on other inputs. -/
def urlHost (url : String) : Option String :=
  if startsWithCI "https://".data url.data then
    some (String.mk ((url.data.drop 8).takeWhile hostChar))
  else if startsWithCI "http://".data url.data then
    some (String.mk ((url.data.drop 7).takeWhile hostChar))
  else none

/-- The `.replace(/^www\./, '')` applied to the hostname. -/
def stripLeadingWww (h : String) : String :=
  if startsWithCS "www.".data h.data then String.mk (h.data.drop 4) else h

/-- recipe-extractor.ts extractRecipeFromUrl (the direct-page route). -/
def extractRecipeFromUrl (url : String) (deps : ExtractionDeps) :
    Except String (ExtractionResult × List ModelCall) :=
  match deps.fetchHtml url with
  | .error e => .error e
  | .ok html =>
    match deps.extractJsonLd html with
    | .error e => .error e
    | .ok none => .ok (.notRecipe "No Recipe JSON-LD found on page", [])
    | .ok (some jsonLd) =>
      match deps.parseRecipeFromJsonLd jsonLd with
      | .error e => .error e
      | .ok (.notRecipe reason) => .ok (.notRecipe reason, [.jsonLdOnly])
      | .ok (.isRecipe _ recipe) =>
        let photo :=
          match deps.extractOpenGraphImageUrl html with
          | some u => if u = "" then none else deps.downloadImage u
          | none => none
        match urlHost url with
        | none => .error "Invalid URL"
        | some h =>
          .ok (.extracted
            { recipe := recipe
              sourceUrl := url
              sourceName := stripLeadingWww h
              photo := photo }, [.jsonLdOnly])

/-- The two route tags of the source classifier. -/
inductive Route where
  | social
  | directPage
  deriving DecidableEq, Repr

/-- The classifier decision inside extractRecipeFromSource:
`url.includes('instagram.com')`. -/
def routeOf (url : String) : Route :=
  if containsSub "instagram.com".data url.data = true then .social else .directPage

/-- recipe-extractor.ts extractRecipeFromSource. -/
def extractRecipeFromSource (url : String) (deps : ExtractionDeps) :
    Except String (ExtractionResult × List ModelCall) :=
  if containsSub "instagram.com".data url.data = true then
    extractRecipeFromInstagram url deps
  else extractRecipeFromUrl url deps

/-! ## Claim C2 — the source classifier -/

/-- Counterexample to claim C2 as stated.  The claim says the classifier
routes to the social path if and only if the URL's host is the platform's
domain.  This URL's host is example.com, yet the substring test
`url.includes('instagram.com')` routes it to the social path. -/
theorem c2_counterexample :
    routeOf "https://example.com/recipes/instagram.com-pasta" = .social ∧
    urlHost "https://example.com/recipes/instagram.com-pasta" = some "example.com" ∧
    ("example.com" : String) ≠ "instagram.com" ∧
    ("example.com" : String) ≠ "www.instagram.com" := by
  refine ⟨rfl, rfl, by decide, by decide⟩

/-- Claim C2 as amended: the classifier routes a URL to the social
(Instagram) path iff the string "instagram.com" occurs anywhere in the URL —
in particular whenever the URL's host is instagram.com or www.instagram.com —
and to the direct-page path otherwise; it is a pure, total function with no
error case, and extractRecipeFromSource dispatches on exactly this route. -/
theorem c2_substring_routing (url : String) :
    (routeOf url = .social ↔ containsSub "instagram.com".data url.data = true) ∧
    (routeOf url = .social ∨ routeOf url = .directPage) ∧
    (∀ h, urlHost url = some h → h = "instagram.com" ∨ h = "www.instagram.com" →
      routeOf url = .social) ∧
    (∀ deps, extractRecipeFromSource url deps =
      match routeOf url with
      | .social => extractRecipeFromInstagram url deps
      | .directPage => extractRecipeFromUrl url deps) := by
  have hmain : ∀ k rest, url.data.drop k = "instagram.com".data ++ rest →
      containsSub "instagram.com".data url.data = true := by
    intro k rest hk
    exact containsSub_of_parts _ (url.data.take k) rest _
      (by rw [← hk, List.take_append_drop])
  refine ⟨?_, ?_, ?_, ?_⟩
  · unfold routeOf
    by_cases hc : containsSub "instagram.com".data url.data = true <;> simp [hc]
  · unfold routeOf
    by_cases hc : containsSub "instagram.com".data url.data = true <;> simp [hc]
  · intro h hh hdom
    have hcontains : containsSub "instagram.com".data url.data = true := by
      unfold urlHost at hh
      split at hh
      · simp only [Option.some.injEq] at hh
        have hdata : (url.data.drop 8).takeWhile hostChar = h.data := by
          rw [← hh]
        have hsplit : url.data.drop 8 = h.data ++ (url.data.drop 8).dropWhile hostChar := by
          rw [← hdata, List.takeWhile_append_dropWhile]
        rcases hdom with hd | hd
        · apply hmain 8 ((url.data.drop 8).dropWhile hostChar)
          conv_lhs => rw [hsplit, hd]
        · apply hmain 12 ((url.data.drop 8).dropWhile hostChar)
          have hdd : url.data.drop 12 = (url.data.drop 8).drop 4 := by
            rw [List.drop_drop]
          rw [hdd]
          conv_lhs => rw [hsplit, hd]
          rfl
      · split at hh
        · simp only [Option.some.injEq] at hh
          have hdata : (url.data.drop 7).takeWhile hostChar = h.data := by
            rw [← hh]
          have hsplit : url.data.drop 7 = h.data ++ (url.data.drop 7).dropWhile hostChar := by
            rw [← hdata, List.takeWhile_append_dropWhile]
          rcases hdom with hd | hd
          · apply hmain 7 ((url.data.drop 7).dropWhile hostChar)
            conv_lhs => rw [hsplit, hd]
          · apply hmain 11 ((url.data.drop 7).dropWhile hostChar)
            have hdd : url.data.drop 11 = (url.data.drop 7).drop 4 := by
              rw [List.drop_drop]
            rw [hdd]
            conv_lhs => rw [hsplit, hd]
            rfl
        · exact absurd hh (by simp)
    unfold routeOf
    simp [hcontains]
  · intro deps
    unfold extractRecipeFromSource routeOf
    by_cases hc : containsSub "instagram.com".data url.data = true <;> simp [hc]

/-- Witness for the amended C2: a URL whose host is exactly the platform
domain is routed to the social path. -/
theorem c2_witness : routeOf "https://instagram.com/p/xyz" = Route.social := by
  exact (c2_substring_routing "https://instagram.com/p/xyz").2.2.1 "instagram.com" rfl (Or.inl rfl)

/-! ## Claim C3 — direct-page route without structured data -/

/-- A dependency wiring for direct-page scenarios: fetching any URL yields
the given page, JSON-LD extraction is the real extractJsonLd over the sample
JSON.parse oracle, and every model entry point fails if consulted (so any
terminal outcome certifies the model was not invoked). -/
def directPageDeps (page : String) : ExtractionDeps :=
  { fetchInstagramPost := fun _ => .error "No results returned from Apify"
    getPostImageUrl := getPostImageUrl
    downloadImage := fun _ => none
    fetchHtml := fun _ => .ok page
    extractJsonLd := fun h => extractJsonLd sampleParse h
    extractOpenGraphImageUrl := fun _ => none
    parseRecipeFromCaption := fun _ => .error "model unavailable"
    parseRecipeFromJsonLd := fun _ => .error "model unavailable"
    parseRecipeFromJsonLdAndCaption := fun _ _ => .error "model unavailable" }

/-- Claim C3 as amended: a direct-page extraction whose fetched HTML has no
JSON-LD block parsing to JSON null and no candidate of @type "Recipe"
terminates immediately with NotRecipe and the code's reason string
"No Recipe JSON-LD found on page" (the spec's quoted reason text differs, see
the counterexample), making no model call (the trace is empty). -/
theorem c3_no_structured_data (parse : List Char → Option Json) (deps : ExtractionDeps)
    (url html : String)
    (hfetch : deps.fetchHtml url = .ok html)
    (hjd : deps.extractJsonLd html = extractJsonLd parse html)
    (hnull : ∀ b ∈ scriptBlocks html, parseNullB parse b = false)
    (hnorec : ∀ b ∈ scriptBlocks html,
      ((parse b).bind fun d => (specCandidates d).find? isRecipeCand) = none) :
    extractRecipeFromUrl url deps = .ok (.notRecipe "No Recipe JSON-LD found on page", []) := by
  have hscan : extractJsonLd parse html = .ok none := by
    unfold extractJsonLd
    rw [extractLoop_spec parse (html.data.length + 1) html.data (by omega) hnull]
    have hnone : ((scriptBlocks html).findSome? fun b =>
        (parse b).bind fun d => (specCandidates d).find? isRecipeCand) = none :=
      List.findSome?_eq_none_iff.mpr hnorec
    rw [show blocksLoop (html.data.length + 1) html.data = scriptBlocks html from rfl, hnone]
  simp only [extractRecipeFromUrl, hfetch, hjd, hscan]

/-- Counterexample to claim C3 as stated: on a page with no structured data
the outcome's reason is the code's "No Recipe JSON-LD found on page", not the
claimed "no structured recipe data found". -/
theorem c3_counterexample :
    extractRecipeFromUrl "https://example.com/cake" (directPageDeps "<p>no recipe here</p>") =
      .ok (.notRecipe "No Recipe JSON-LD found on page", []) ∧
    ("No Recipe JSON-LD found on page" : String) ≠ "no structured recipe data found" := by
  exact ⟨rfl, by decide⟩

/-- Witness for the amended C3 at a concrete page with one non-Recipe
JSON-LD block. -/
theorem c3_witness :
    extractRecipeFromUrl "https://example.com/soup"
      (directPageDeps "<script type=\"application/ld+json\">nonsense</script>") =
      .ok (.notRecipe "No Recipe JSON-LD found on page", []) := by
  have hb : scriptBlocks "<script type=\"application/ld+json\">nonsense</script>" =
      ["nonsense".data] := rfl
  exact c3_no_structured_data sampleParse
    (directPageDeps "<script type=\"application/ld+json\">nonsense</script>")
    "https://example.com/soup" "<script type=\"application/ld+json\">nonsense</script>"
    rfl rfl
    (by rw [hb]; intro b hb'; fin_cases hb'; rfl)
    (by rw [hb]; intro b hb'; fin_cases hb'; rfl)

/-! ## Claim C4 — best-effort link enrichment on the social route -/

/-- Claim C4: on the social route, when a link is found in the caption, any
failure of the structured-data fetch on that link is caught locally and the
pipeline proceeds exactly as the caption-only no-link path with the original
URL as sourceUrl; when structured data is obtained, the merge synthesis is
invoked and a successful outcome's sourceUrl is the caption-linked URL. -/
theorem c4_best_effort_link (deps : ExtractionDeps) (url : String) (post : InstagramPost)
    (l : String)
    (hpost : deps.fetchInstagramPost url = .ok post)
    (hlink : extractUrlFromCaption post.caption = some l)
    (hl : l ≠ "") :
    (∀ e, deps.fetchHtml l = .error e → tryFetchJsonLd l deps = none) ∧
    (tryFetchJsonLd l deps = none →
      extractRecipeFromInstagram url deps = captionBranch url deps post) ∧
    (∀ v tr, captionBranch url deps post = .ok (.extracted v, tr) →
      v.sourceUrl = url ∧ tr = [.captionOnly]) ∧
    (∀ j, tryFetchJsonLd l deps = some j →
      extractRecipeFromInstagram url deps = mergeBranch l deps post j ∧
      ∀ v tr, mergeBranch l deps post j = .ok (.extracted v, tr) →
        v.sourceUrl = l ∧ tr = [.merge]) := by
  refine ⟨?_, ?_, ?_, ?_⟩
  · intro e he
    unfold tryFetchJsonLd
    rw [he]
  · intro hnone
    simp only [extractRecipeFromInstagram, hpost, hlink, hnone]
  · intro v tr hres
    unfold captionBranch at hres
    cases hp : deps.parseRecipeFromCaption post.caption with
    | error e => rw [hp] at hres; exact absurd hres (by simp)
    | ok r =>
      rw [hp] at hres
      cases r with
      | notRecipe reason => exact absurd hres (by simp)
      | isRecipe conf recipe =>
        unfold finishPost at hres
        simp only [Except.ok.injEq, Prod.mk.injEq, ExtractionResult.extracted.injEq] at hres
        obtain ⟨hv, htr⟩ := hres
        exact ⟨by rw [← hv], htr.symm⟩
  · intro j hj
    constructor
    · simp only [extractRecipeFromInstagram, hpost, hlink, hj, if_neg hl]
    · intro v tr hres
      unfold mergeBranch at hres
      cases hp : deps.parseRecipeFromJsonLdAndCaption j post.caption with
      | error e => rw [hp] at hres; exact absurd hres (by simp)
      | ok r =>
        rw [hp] at hres
        cases r with
        | notRecipe reason => exact absurd hres (by simp)
        | isRecipe conf recipe =>
          unfold finishPost at hres
          simp only [Except.ok.injEq, Prod.mk.injEq, ExtractionResult.extracted.injEq] at hres
          obtain ⟨hv, htr⟩ := hres
          exact ⟨by rw [← hv], htr.symm⟩

/-- A concrete Instagram photo post whose caption links a recipe page. -/
def igPost : InstagramPost :=
  { caption := "Full recipe: https://blog.example.com/pasta. Enjoy!"
    ownerUsername := "chef"
    ownerFullName := "Chef Example"
    url := "https://www.instagram.com/p/abc/"
    shortCode := "abc"
    timestamp := "2024-01-01T00:00:00Z"
    type := "Photo"
    hashtags := []
    displayUrl := some "https://cdn.example.com/img.jpg"
    thumbnailUrl := none
    images := none }

/-- A dependency wiring for the social route in which the linked page's
fetch fails with an HTTP error, the caption model succeeds, and the real
getPostImageUrl is plugged in. -/
def igDeps : ExtractionDeps :=
  { fetchInstagramPost := fun _ => .ok igPost
    getPostImageUrl := getPostImageUrl
    downloadImage := fun _ => some [137, 80, 78, 71]
    fetchHtml := fun _ => .error "HTTP 500 fetching https://blog.example.com/pasta"
    extractJsonLd := fun h => extractJsonLd sampleParse h
    extractOpenGraphImageUrl := fun _ => none
    parseRecipeFromCaption := fun _ => .ok (.isRecipe 1 pastaRecipe)
    parseRecipeFromJsonLd := fun _ => .error "model unavailable"
    parseRecipeFromJsonLdAndCaption := fun _ _ => .ok (.isRecipe 1 pastaRecipe) }

/-- Witness for C4: with the linked page unreachable, the pipeline equals the
caption-only branch and succeeds with the original post URL as sourceUrl. -/
theorem c4_witness :
    extractRecipeFromInstagram "https://www.instagram.com/p/abc/" igDeps =
      captionBranch "https://www.instagram.com/p/abc/" igDeps igPost ∧
    extractRecipeFromInstagram "https://www.instagram.com/p/abc/" igDeps =
      .ok (.extracted
        { recipe := pastaRecipe
          sourceUrl := "https://www.instagram.com/p/abc/"
          sourceName := "Chef Example"
          photo := some [137, 80, 78, 71] }, [.captionOnly]) := by
  have h := c4_best_effort_link igDeps "https://www.instagram.com/p/abc/" igPost
    "https://blog.example.com/pasta" rfl rfl (by decide)
  have heq := h.2.1 (h.1 "HTTP 500 fetching https://blog.example.com/pasta" rfl)
  exact ⟨heq, by rw [heq]; rfl⟩

/-! ## Lemmas about the caption URL matcher (claims C6 and C7) -/

theorem drop_take_comm (l : List Char) (n m : Nat) :
    (l.drop n).take m = (l.take (n + m)).drop n := by
  rw [List.drop_take]
  congr 1
  omega

theorem matchPrefixAt_nil : matchPrefixAt [] = none := rfl

theorem swci_https_self (r : List Char) :
    startsWithCI "https://".data ("https://".data ++ r) = true := rfl

theorem swci_https_of_http (r : List Char) :
    startsWithCI "https://".data ("http://".data ++ r) = false := rfl

theorem swci_http_self (r : List Char) :
    startsWithCI "http://".data ("http://".data ++ r) = true := rfl

theorem swcs_http_of_https (r : List Char) :
    startsWithCS "http".data ("https://".data ++ r) = true := rfl

theorem swcs_http_of_http (r : List Char) :
    startsWithCS "http".data ("http://".data ++ r) = true := rfl

theorem matchPrefixAt_https (r : List Char) :
    matchPrefixAt ("https://".data ++ r) = some ("https://".data, r) := by
  unfold matchPrefixAt
  rw [swci_https_self]
  simp only [if_true]
  rfl

theorem matchPrefixAt_http (r : List Char) :
    matchPrefixAt ("http://".data ++ r) = some ("http://".data, r) := by
  unfold matchPrefixAt
  rw [swci_https_of_http, swci_http_self]
  simp only [Bool.false_eq_true, if_false, if_true]
  rfl

theorem matchPrefixAt_eq_none_of_urlIsh {s : List Char} (h : urlIsh s = false) :
    matchPrefixAt s = none := by
  unfold urlIsh at h
  simp only [Bool.or_eq_false_iff] at h
  obtain ⟨⟨h1, h2⟩, h3⟩ := h
  unfold matchPrefixAt
  rw [h1, h2, h3]
  simp

theorem collapseNL_id {s : List Char} (h : '\n' ∉ s) : collapseNL s = s := by
  induction s with
  | nil => rfl
  | cons c rest ih =>
    have hc : ¬ c = '\n' := by
      intro hcc
      exact h (by rw [hcc]; exact List.mem_cons_self _ _)
    have ih2 := ih fun hm => h (List.mem_cons_of_mem _ hm)
    simp only [collapseNL, if_neg hc, ih2]

theorem isPunct_not_ws {c : Char} (h : isPunct c = true) : jsWS c = false := by
  unfold isPunct at h
  simp only [Bool.or_eq_true, decide_eq_true_eq] at h
  rcases h with ((((h | h) | h) | h) | h)
  all_goals (subst h; rfl)

theorem findUrlMatch_skip (pre s : List Char)
    (h : ∀ i, i < pre.length → matchPrefixAt ((pre ++ s).drop i) = none) :
    findUrlMatch (pre ++ s) = findUrlMatch s := by
  induction pre with
  | nil => rfl
  | cons c cs ih =>
    have h0 : matchPrefixAt (c :: (cs ++ s)) = none := by
      have hh := h 0 (by simp)
      simpa using hh
    rw [List.cons_append]
    simp only [findUrlMatch, h0]
    exact ih fun i hi => by
      have hh := h (i + 1) (by simp only [List.length_cons]; omega)
      simpa using hh

theorem findUrlMatch_hit (s consumed after : List Char)
    (hm : matchPrefixAt s = some (consumed, after))
    (hno : instaAfter after = false)
    (hrun : after.takeWhile (fun ch => !jsWS ch) ≠ []) :
    findUrlMatch s = some (consumed ++ after.takeWhile (fun ch => !jsWS ch)) := by
  cases s with
  | nil => rw [matchPrefixAt_nil] at hm; exact Option.noConfusion hm
  | cons c rest =>
    cases hr : after.takeWhile (fun ch => !jsWS ch) with
    | nil => exact absurd hr hrun
    | cons a as => simp only [findUrlMatch, hm, hno, Bool.false_eq_true, if_false, hr]

theorem findUrlMatch_none (s : List Char)
    (h : ∀ i, i < s.length → ∀ consumed after,
      matchPrefixAt (s.drop i) = some (consumed, after) → instaAfter after = true) :
    findUrlMatch s = none := by
  induction s with
  | nil => rfl
  | cons c rest ih =>
    have hshift : ∀ i, i < rest.length → ∀ consumed after,
        matchPrefixAt (rest.drop i) = some (consumed, after) → instaAfter after = true := by
      intro i hi consumed after hm
      exact h (i + 1) (by simp only [List.length_cons]; omega) consumed after
        (by simpa using hm)
    cases hm : matchPrefixAt (c :: rest) with
    | none =>
      simp only [findUrlMatch, hm]
      exact ih hshift
    | some p =>
      obtain ⟨consumed, after⟩ := p
      have hia : instaAfter after = true := h 0 (by simp) consumed after (by simpa using hm)
      simp only [findUrlMatch, hm, hia, if_true]
      exact ih hshift

/-- The spec-side hypothesis form for C7: every URL-shaped position of the
text has a host that is the platform's own domain (with or without a leading
www.); positions with no URL shape are vacuously fine. -/
def instaHostAt (s : List Char) : Bool :=
  match hostOfAt s with
  | some hl =>
    (lcList hl == "instagram.com".data) || (lcList hl == "www.instagram.com".data)
  | none => true

theorem hostPrefix_swci {pat s hl : List Char} (hpr : hl = s.takeWhile hostChar)
    (hlc : lcList hl = pat) : startsWithCI pat s = true := by
  have hpre : hl <+: s := by rw [hpr]; exact List.takeWhile_prefix _
  have hlen : hl.length = pat.length := by rw [← hlc]; simp [lcList]
  have htake : hl = s.take pat.length := by
    rw [← hlen]
    exact List.prefix_iff_eq_take.mp hpre
  rw [startsWithCI_iff]
  refine ⟨?_, ?_⟩
  · rw [← hlen]
    exact hpre.length_le
  · rw [← htake]
    exact hlc

theorem swci_head {p : Char} {ps : List Char} {c : Char} {cs : List Char}
    (h : startsWithCI (p :: ps) (c :: cs) = true) :
    lcChar c = p ∧ startsWithCI ps cs = true := by
  simpa [startsWithCI] using h

/-- Any regex match position whose host is the platform domain makes the
negative lookahead fail. -/
theorem instaAfter_of_host {s : List Char} (hhost : instaHostAt s = true) :
    ∀ consumed after, matchPrefixAt s = some (consumed, after) →
      instaAfter after = true := by
  intro consumed after hm
  unfold matchPrefixAt at hm
  unfold instaHostAt hostOfAt at hhost
  by_cases h1 : startsWithCI "https://".data s = true
  · rw [if_pos h1] at hm hhost
    simp only [Option.some.injEq, Prod.mk.injEq] at hm
    obtain ⟨-, hafter⟩ := hm
    subst hafter
    simp only [Bool.or_eq_true, beq_iff_eq] at hhost
    rcases hhost with hc | hc
    · have hsw := hostPrefix_swci rfl hc
      unfold instaAfter
      simp [hsw]
    · have hsw := hostPrefix_swci rfl hc
      unfold instaAfter
      simp [hsw]
  · rw [if_neg h1] at hm hhost
    by_cases h2 : startsWithCI "http://".data s = true
    · rw [if_pos h2] at hm hhost
      simp only [Option.some.injEq, Prod.mk.injEq] at hm
      obtain ⟨-, hafter⟩ := hm
      subst hafter
      simp only [Bool.or_eq_true, beq_iff_eq] at hhost
      rcases hhost with hc | hc
      · have hsw := hostPrefix_swci rfl hc
        unfold instaAfter
        simp [hsw]
      · have hsw := hostPrefix_swci rfl hc
        unfold instaAfter
        simp [hsw]
    · rw [if_neg h2] at hm hhost
      by_cases h3 : startsWithCI "www.".data s = true
      · rw [if_pos h3] at hm hhost
        simp only [Option.some.injEq, Prod.mk.injEq] at hm
        obtain ⟨-, hafter⟩ := hm
        subst hafter
        simp only [Bool.or_eq_true, beq_iff_eq] at hhost
        rcases hhost with hc | hc
        · exfalso
          have hsw : startsWithCI "instagram.com".data s = true := hostPrefix_swci rfl hc
          cases s with
          | nil => exact absurd h3 (by rw [show startsWithCI "www.".data [] = false from rfl]; simp)
          | cons a as =>
            have e1 : lcChar a = 'w' :=
              (swci_head (show startsWithCI ('w' :: "ww.".data) (a :: as) = true from h3)).1
            have e2 : lcChar a = 'i' :=
              (swci_head (show startsWithCI ('i' :: "nstagram.com".data) (a :: as) = true from hsw)).1
            rw [e1] at e2
            exact absurd e2 (by decide)
        · have hsw : startsWithCI "www.instagram.com".data s = true := hostPrefix_swci rfl hc
          have hiff := (startsWithCI_iff _ _).mp hsw
          have hlen17 : 17 ≤ s.length := by simpa using hiff.1
          have hmap : (s.take 17).map lcChar = "www.instagram.com".data := by
            simpa using hiff.2
          have hsw2 : startsWithCI "instagram.com".data (s.drop 4) = true := by
            rw [startsWithCI_iff]
            constructor
            · rw [List.length_drop, show ("instagram.com".data).length = 13 from rfl]
              omega
            · have hdt : (s.drop 4).take 13 = (s.take 17).drop 4 := by
                have hcomm := drop_take_comm s 4 13
                simpa using hcomm
              have hgoal : ((s.drop 4).take 13).map lcChar = "instagram.com".data := by
                rw [hdt, List.map_drop, hmap]
                rfl
              simpa using hgoal
          unfold instaAfter
          simp [hsw2]
      · rw [if_neg h3] at hm
        exact Option.noConfusion hm

/-! ## Claim C7 — captions whose only URL is the platform's own -/

/-- Claim C7: for every caption in which every URL-shaped position (an
occurrence of http://, https:// or a bare www., in the line-break-collapsed
text) has the social platform's own domain as its host, with or without a
leading www., the Caption Link Extractor returns none.  In particular this
covers every caption whose only embedded URL points at the platform. -/
theorem c7_platform_links_rejected (caption : String)
    (hIG : ∀ i, i < (collapseNL caption.data).length →
      instaHostAt ((collapseNL caption.data).drop i) = true) :
    extractUrlFromCaption caption = none := by
  have hnone := findUrlMatch_none (collapseNL caption.data) fun i hi consumed after hm =>
    instaAfter_of_host (hIG i hi) consumed after hm
  unfold extractUrlFromCaption
  rw [hnone]

/-- Witness for C7 at a caption whose only URL is an instagram.com post
link. -/
theorem c7_witness :
    extractUrlFromCaption "check https://www.instagram.com/p/abc ok" = none := by
  exact c7_platform_links_rejected "check https://www.instagram.com/p/abc ok" (by decide)

/-! ## Claim C6 — mid-sentence URL with trailing punctuation -/

/-- Claim C6: for every caption consisting of preceding sentence text (with
no URL-shaped position and no newline), an http(s) URL without whitespace or
a trailing punctuation character of its own, trailing punctuation drawn from
. , ) > ] and then whitespace-led trailing text, the Caption Link Extractor
returns exactly the URL with the punctuation stripped and no surrounding
sentence text. -/
theorem c6_punct_stripping (pre scheme tail punct post : List Char)
    (hscheme : scheme = "https://".data ∨ scheme = "http://".data)
    (hnl : '\n' ∉ pre ++ (scheme ++ (tail ++ (punct ++ post))))
    (hpre : ∀ i, i < pre.length →
      urlIsh ((pre ++ (scheme ++ (tail ++ (punct ++ post)))).drop i) = false)
    (hinsta : instaAfter (tail ++ (punct ++ post)) = false)
    (htail : tail ≠ [])
    (htailws : ∀ c ∈ tail, jsWS c = false)
    (hpunct : ∀ c ∈ punct, isPunct c = true)
    (hlast : tail.getLast?.all (fun c => !isPunct c) = true)
    (hpost : post.head?.all jsWS = true) :
    extractUrlFromCaption (String.mk (pre ++ (scheme ++ (tail ++ (punct ++ post))))) =
      some (String.mk (scheme ++ tail)) := by
  have hrun : (tail ++ (punct ++ post)).takeWhile (fun ch => !jsWS ch) = tail ++ punct := by
    rw [takeWhile_append_all fun c hc => by simp [htailws c hc]]
    rw [takeWhile_append_all fun c hc => by simp [isPunct_not_ws (hpunct c hc)]]
    have hp0 : post.takeWhile (fun ch => !jsWS ch) = [] := by
      cases post with
      | nil => rfl
      | cons d rest2 =>
        have hd : jsWS d = true := by simpa using hpost
        rw [List.takeWhile_cons_of_neg (by simp [hd])]
    rw [hp0, List.append_nil]
  have hrunne : (tail ++ (punct ++ post)).takeWhile (fun ch => !jsWS ch) ≠ [] := by
    rw [hrun]
    simp [htail]
  have hmatch : findUrlMatch (scheme ++ (tail ++ (punct ++ post))) =
      some (scheme ++ (tail ++ punct)) := by
    rcases hscheme with hs | hs
    · subst hs
      have hhit := findUrlMatch_hit _ _ _ (matchPrefixAt_https (tail ++ (punct ++ post)))
        hinsta hrunne
      rw [hhit, hrun]
    · subst hs
      have hhit := findUrlMatch_hit _ _ _ (matchPrefixAt_http (tail ++ (punct ++ post)))
        hinsta hrunne
      rw [hhit, hrun]
  have hstrip : stripTrailingPunct (scheme ++ (tail ++ punct)) = scheme ++ tail := by
    unfold stripTrailingPunct
    rw [List.reverse_append, List.reverse_append, List.append_assoc]
    rw [dropWhile_append_all fun c hc => hpunct c (List.mem_reverse.mp hc)]
    cases htr : tail.reverse with
    | nil => exact absurd (List.reverse_eq_nil_iff.mp htr) htail
    | cons a as =>
      have hga : tail.getLast? = some a := by
        rw [List.getLast?_eq_head?_reverse, htr]
        rfl
      have ha : isPunct a = false := by
        have h2 := hlast
        rw [hga] at h2
        simpa using h2
      rw [List.cons_append, List.dropWhile_cons_of_neg (by simp [ha]), ← List.cons_append,
        ← htr, ← List.reverse_append, List.reverse_reverse]
  have hskip := findUrlMatch_skip pre (scheme ++ (tail ++ (punct ++ post)))
    fun i hi => matchPrefixAt_eq_none_of_urlIsh (hpre i hi)
  unfold extractUrlFromCaption
  rw [show (String.mk (pre ++ (scheme ++ (tail ++ (punct ++ post))))).data =
    pre ++ (scheme ++ (tail ++ (punct ++ post))) from rfl]
  rw [collapseNL_id hnl, hskip, hmatch]
  dsimp only
  rw [hstrip]
  rcases hscheme with hs | hs
  · subst hs
    rw [if_pos]
    rw [swcs_http_of_https]
  · subst hs
    rw [if_pos]
    rw [swcs_http_of_http]

/-- Witness for C6 at the spec's own example caption. -/
theorem c6_witness :
    extractUrlFromCaption "...recipe here: https://example.com/x.html. Enjoy!" =
      some "https://example.com/x.html" := by
  have h := c6_punct_stripping "...recipe here: ".data "https://".data "example.com/x.html".data
    ['.'] " Enjoy!".data (Or.inl rfl) (by decide) (by decide) (by decide) (by decide)
    (by decide) (by decide) (by decide) (by decide)
  exact h

end FeedMe
